import Mathlib

/-
Verification of the concurrency core of the tractor actor runtime:
a shallow embedding of src/tractor/msg.py (pub/sub fan-out) and
src/tractor/_trionics.py (actor nursery) together with theorems about the
claims of the specification.
-/

namespace Tractor

/-! ## Python dict model

A Python dict is modelled as an insertion-ordered association list whose keys
are unique.  `dictGet` is subscript lookup, `dictSet` is item assignment
(overwrite in place, else append), `dictUpdate` is `dict.update`. -/

/-- Lookup of a key in an insertion-ordered association list. -/
def dictGet {α β : Type} [DecidableEq α] (d : List (α × β)) (k : α) : Option β :=
  match d with
  | [] => none
  | p :: rest => if p.1 = k then some p.2 else dictGet rest k

/-- Item assignment: overwrite the first binding of the key in place, else
append the binding at the end (Python dict insertion order). -/
def dictSet {α β : Type} [DecidableEq α] (d : List (α × β)) (k : α) (v : β) :
    List (α × β) :=
  match d with
  | [] => [(k, v)]
  | p :: rest => if p.1 = k then (k, v) :: rest else p :: dictSet rest k v

/-- Python dict.update: fold item assignment over the other dict. -/
def dictUpdate {α β : Type} [DecidableEq α] (d e : List (α × β)) : List (α × β) :=
  e.foldl (fun acc p => dictSet acc p.1 p.2) d

/-- The key view of an association list. -/
def dictKeys {α β : Type} (d : List (α × β)) : List α :=
  d.map Prod.fst

/-! ## msg.py: fan_out_to_ctxs

Topics, subscriber contexts and published data are numbered.  A payload is a
packet dict.  `buildCtxPayloads` is the body of the async-for loop of
`fan_out_to_ctxs` for one yielded mapping: it folds over the published items,
and for each item folds the packet into the accumulating per-subscriber
payload dict of every context subscribed to the topic. -/

abbrev Topic := Nat
abbrev Ctx := Nat
abbrev Payload := List (Nat × Nat)

/-- Default packet built when no packetizer is supplied. -/
def defaultPacketizer (topic : Topic) (data : Nat) : Payload :=
  [(topic, data)]

/-- Inner loop of fan_out_to_ctxs over the subscribers of one topic:
ctx_payloads.setdefault(ctx, empty).update(packet) for each subscriber. -/
def accumulatePacket (packet : Payload) (ctxs : List Ctx)
    (acc : List (Ctx × Payload)) : List (Ctx × Payload) :=
  match ctxs with
  | [] => acc
  | c :: rest =>
      accumulatePacket packet rest
        (dictSet acc c (dictUpdate ((dictGet acc c).getD []) packet))

/-- Outer loop of the fan_out_to_ctxs body over the yielded mapping. -/
def buildCtxPayloadsAux (pk : Topic → Nat → Payload)
    (topics2ctxs : List (Topic × List Ctx)) (published : List (Topic × Nat))
    (acc : List (Ctx × Payload)) : List (Ctx × Payload) :=
  match published with
  | [] => acc
  | td :: rest =>
      buildCtxPayloadsAux pk topics2ctxs rest
        (accumulatePacket (pk td.1 td.2) ((dictGet topics2ctxs td.1).getD []) acc)

/-- ctx_payloads built for one yielded mapping, in subscriber first-touch
order; each entry is sent as one streamed yield to its context. -/
def buildCtxPayloads (pk : Topic → Nat → Payload)
    (topics2ctxs : List (Topic × List Ctx)) (published : List (Topic × Nat)) :
    List (Ctx × Payload) :=
  buildCtxPayloadsAux pk topics2ctxs published []

/-- The whole send trace of a fan_out_to_ctxs run over a fixed subscription
map: the per-yield deliveries concatenated in producer-yield order. -/
def fanOutSendTrace (pk : Topic → Nat → Payload)
    (topics2ctxs : List (Topic × List Ctx))
    (yields : List (List (Topic × Nat))) : List (Ctx × Payload) :=
  (yields.map (fun pub => buildCtxPayloads pk topics2ctxs pub)).flatten

/-- The subsequence of a send trace delivered to one context. -/
def recvOf (c : Ctx) (trace : List (Ctx × Payload)) : List Payload :=
  trace.filterMap (fun q => if q.1 = c then some q.2 else none)

/-- The packetizer outputs for exactly those yielded items whose topic the
context is subscribed to, in yield order. -/
def subscriberPackets (pk : Topic → Nat → Payload)
    (topics2ctxs : List (Topic × List Ctx)) (c : Ctx)
    (published : List (Topic × Nat)) : List Payload :=
  (published.filter
      (fun td => decide (c ∈ (dictGet topics2ctxs td.1).getD []))).map
    (fun td => pk td.1 td.2)

/-- Dict-merge of a list of packets, first to last. -/
def mergeAll (ps : List Payload) : Payload :=
  ps.foldl (fun acc p => dictUpdate acc p) []

/-! ## msg.py: modify_subs -/

/-- One step of the first loop of modify_subs:
topics2ctxs.setdefault(ticker, empty set).add(ctx). -/
def addSub (d : List (Topic × List Ctx)) (t : Topic) (c : Ctx) :
    List (Topic × List Ctx) :=
  let cur := (dictGet d t).getD []
  dictSet d t (if c ∈ cur then cur else cur ++ [c])

/-- First loop of modify_subs over the requested topics. -/
def addSubs (d : List (Topic × List Ctx)) (topics : List Topic) (c : Ctx) :
    List (Topic × List Ctx) :=
  match topics with
  | [] => d
  | t :: rest => addSubs (addSub d t c) rest c

/-- Second loop of modify_subs, per entry: entries of requested topics are
kept untouched; elsewhere the ctx is discarded and an entry whose subscriber
set becomes empty is popped. -/
def pruneSub (topics : List Topic) (c : Ctx) (p : Topic × List Ctx) :
    Option (Topic × List Ctx) :=
  if p.1 ∈ topics then some p
  else if (p.2.erase c).isEmpty then none else some (p.1, p.2.erase c)

/-- modify_subs from msg.py: add the ctx under every requested topic, then
discard it from every other topic and pop empty subscriber sets. -/
def modify_subs (d : List (Topic × List Ctx)) (topics : List Topic) (c : Ctx) :
    List (Topic × List Ctx) :=
  (addSubs d topics c).filterMap (pruneSub topics c)

/-! ## msg.py: the respawn loop of pub.wrapper

The while-respawn loop around fan_out_to_ctxs: each run of the feed task
either terminates normally, fails with trio.BrokenResourceError (caught, and
respawn is set back to true), or fails with any other exception (uncaught,
so it propagates).  The loop is driven by the outcomes of the successive
runs; the counter records how many respawns were performed. -/

inductive RunOutcome
  | ok : RunOutcome
  | brokenResource : RunOutcome
  | raised : Nat → RunOutcome
  deriving DecidableEq

inductive LoopResult
  | completed : Nat → LoopResult
  | propagated : Nat → LoopResult
  | ranOut : LoopResult
  deriving DecidableEq

/-- The while-respawn loop of pub.wrapper over the outcomes of the successive
fan_out_to_ctxs runs, carrying the respawn count performed so far. -/
def respawnLoop : List RunOutcome → Nat → LoopResult
  | [], _ => LoopResult.ranOut
  | RunOutcome.ok :: _, n => LoopResult.completed n
  | RunOutcome.brokenResource :: rest, n => respawnLoop rest (n + 1)
  | RunOutcome.raised e :: _, _ => LoopResult.propagated e

/-! ## msg.py: the decoration-time lock map and its statespace anchor

pub builds task2lock at decoration time: one StrictFIFOLock for the unnamed
slot (key none) plus one per declared task name.  Each wrapper call anchors
the map in the actor statespace with
ss.setdefault(key, task2lock) under the single fixed key, then indexes it
with the passed task_name; an absent name raises KeyError. -/

abbrev LockMap := List (Option Nat × Nat)

/-- task2lock built by the decorator body: the unnamed slot plus one lock per
declared task name, tagged with the decoration identifier. -/
def decorationLockMap (deco : Nat) (tasks : List Nat) : LockMap :=
  (none, deco) :: tasks.map (fun nm => (some nm, deco + 1 + nm))

/-- Python dict.setdefault returning the updated dict and the anchored value. -/
def setdefaultLockMap (ss : List (String × LockMap)) (k : String)
    (dflt : LockMap) : List (String × LockMap) × LockMap :=
  match dictGet ss k with
  | some v => (ss, v)
  | none => (dictSet ss k dflt, dflt)

/-- The lock lookup step of pub.wrapper: anchor the decoration lock map under
the fixed statespace key, then index it with the task name; an error value is
the KeyError raised by the mapping subscript. -/
def wrapperSlotLookup (ss : List (String × LockMap)) (deco : LockMap)
    (task : Option Nat) : List (String × LockMap) × Except Unit Nat :=
  let anchored := setdefaultLockMap ss "_pubtask2lock" deco
  (anchored.1,
    match dictGet anchored.2 task with
    | some l => Except.ok l
    | none => Except.error ())

/-! ## msg.py: the slot mutex protocol of pub.wrapper

Caller tasks of one (actor, task_name) slot run the wrapper protocol: acquire
lockmap[task_name] (a trio.StrictFIFOLock: a free lock is taken at once, a
held one queues the task in arrival order and a release hands the lock to the
head of the queue), run fan_out_to_ctxs while holding it, release on return.
The interleaving of the callers is a transition system over the slot state. -/

inductive Phase
  | outside
  | waiting
  | producing
  | finished
  deriving DecidableEq

structure SlotState where
  holder : Option Nat
  queue : List Nat
  phase : Nat → Phase

/-- Pointwise update of the task-phase assignment. -/
def setPhase (f : Nat → Phase) (t : Nat) (ph : Phase) : Nat → Phase :=
  fun u => if u = t then ph else f u

/-- One scheduler step of the wrapper protocol on one slot. -/
inductive SlotStep : SlotState → SlotState → Prop
  | arriveFree {s : SlotState} (t : Nat) :
      s.holder = none → s.phase t = Phase.outside →
      SlotStep s ⟨some t, s.queue, setPhase s.phase t Phase.producing⟩
  | arriveQueue {s : SlotState} (t h0 : Nat) :
      s.holder = some h0 → s.phase t = Phase.outside →
      SlotStep s ⟨s.holder, s.queue ++ [t], setPhase s.phase t Phase.waiting⟩
  | releaseEmpty {s : SlotState} (t : Nat) :
      s.holder = some t → s.queue = [] →
      SlotStep s ⟨none, [], setPhase s.phase t Phase.finished⟩
  | releaseHandoff {s : SlotState} (t h : Nat) (rest : List Nat) :
      s.holder = some t → s.queue = h :: rest →
      SlotStep s ⟨some h, rest,
        setPhase (setPhase s.phase t Phase.finished) h Phase.producing⟩

/-- States reachable from the idle slot. -/
inductive SlotReach : SlotState → Prop
  | init : SlotReach ⟨none, [], fun _ => Phase.outside⟩
  | step {s s2 : SlotState} : SlotReach s → SlotStep s s2 → SlotReach s2

/-- Invariant of the slot protocol: the producing task is exactly the lock
holder, queued tasks are waiting, and no task queues twice. -/
def SlotInv (s : SlotState) : Prop :=
  (∀ t, s.phase t = Phase.producing ↔ s.holder = some t)
  ∧ (∀ t ∈ s.queue, s.phase t = Phase.waiting)
  ∧ s.queue.Nodup

/-! ## _trionics.py: name resolution inside wait_for_result

ActorNursery.wait defines two nested coroutines; wait_for_result references
the name subactor, which is not among its own locals but is a local of the
enclosing wait() frame, assigned by the for-loop over the children before any
waiter task is started.  Python resolves the name through the closure cell of
the enclosing frame. -/

structure WChild where
  uid : Nat
  portalId : Nat
  alive : Bool
  deriving DecidableEq

/-- The enclosing wait() frame after its for-loop: the loop statement binds
subactor, proc and portal on each iteration. -/
def waitLoopFrameAux (children : List WChild) (env : List (String × Nat)) :
    List (String × Nat) :=
  match children with
  | [] => env
  | c :: rest =>
      waitLoopFrameAux rest
        (dictSet (dictSet (dictSet env "subactor" c.uid) "proc" c.uid)
          "portal" c.portalId)

/-- wait() frame cells visible to the nested coroutines after the loop ran. -/
def waitLoopFrame (children : List WChild) : List (String × Nat) :=
  waitLoopFrameAux children []

/-- Children of wait() for which a wait_for_result task is started: process
alive and portal in the cancel-after-result set. -/
def resultHarvested (children : List WChild) (cancelSet : List Nat) :
    List WChild :=
  children.filter (fun c => c.alive && decide (c.portalId ∈ cancelSet))

/-- Python lexical lookup from the body of a nested coroutine: own locals
first, then the cells of the enclosing frame; an unassigned name raises
NameError. -/
def lookupScoped (locals cells : List (String × Nat)) (n : String) :
    Except String Nat :=
  match dictGet locals n with
  | some v => Except.ok v
  | none =>
    match dictGet cells n with
    | some v => Except.ok v
    | none => Except.error "NameError"

/-- Evaluation of the logging statement of wait_for_result(portal, actor)
that references subactor; the locals frame holds the two parameters. -/
def waitForResultLogLookup (cells : List (String × Nat)) (c : WChild) :
    Except String Nat :=
  lookupScoped [("portal", c.portalId), ("actor", c.uid)] cells "subactor"

/-! ## _trionics.py: the actor nursery

State model: children is the nursery children map (one record per child
still tracked) and procs maps each child uid to the aliveness of its process
handle, which outlives the map entry.  A child record carries the portal slot
as registered (portal), the portal slot as re-read after waiting on the
pending-peer event (portalAfterWait), the peer channel found afterwards
(chanAfterWait), the time a graceful cancel of this child takes
(gracefulDelay), and whether its process eventually exits by itself (exits);
a graceful cancel or a hard kill makes the process exit. -/

structure NChild where
  uid : Nat
  portal : Option Nat
  portalAfterWait : Option Nat
  chanAfterWait : Option Nat
  gracefulDelay : Nat
  exits : Bool
  deriving DecidableEq

structure NState where
  children : List NChild
  procs : List (Nat × Bool)
  cancelled : Bool
  deriving DecidableEq

/-- The joins performed by wait(): every tracked child process is joined, so
its handle reports not alive. -/
def joinAll (children : List NChild) (procs : List (Nat × Bool)) :
    List (Nat × Bool) :=
  match children with
  | [] => procs
  | c :: rest => joinAll rest (dictSet procs c.uid false)

/-- ActorNursery.wait: for each child wait for the process sentinel, join the
process and pop the child from the map; the call returns only when every
child process eventually exits (none models a wait that never returns). -/
def waitModel (s : NState) : Option NState :=
  if s.children.all (fun c => c.exits) then
    some { children := [],
           procs := joinAll s.children s.procs,
           cancelled := s.cancelled }
  else none

inductive CancelErr
  | tooSlow
  | attributeError
  deriving DecidableEq

/-- The child hits the portal-None fallback of cancel(hard_kill=false) with
no replacement portal and no peer channel after waiting on the pending-peer
event: cancel() hard-kills the process and then unconditionally evaluates
portal.cancel_actor on the still-None portal. -/
def noPortalPath (c : NChild) : Bool :=
  c.portal.isNone && c.portalAfterWait.isNone && c.chanAfterWait.isNone

/-- A graceful cancel makes the child unwind and its process exit. -/
def gracefulled (c : NChild) : NChild :=
  { c with exits := true }

/-- ActorNursery.cancel: under a 3 second deadline, hard kill each child
directly, or resolve a portal per child (waiting on the pending-peer event
when the portal slot is still empty) and issue portal.cancel_actor
concurrently for all children; then wait() and set the cancelled flag.  A
child on the no-portal fallback is hard-killed, after which the attribute
access cancel_actor on the None portal raises.  When the concurrent cancel
requests outlast the 3 second deadline, trio.fail_after raises a timeout
error and no hard kill is performed.  Errors carry the state at the raise
point. -/
def cancelModel (hardKill : Bool) (s : NState) :
    Except (CancelErr × NState) NState :=
  if hardKill then
    Except.ok { children := [],
                procs := joinAll s.children s.procs,
                cancelled := true }
  else
    match s.children.find? noPortalPath with
    | some c =>
        Except.error (CancelErr.attributeError,
          { s with procs := dictSet s.procs c.uid false })
    | none =>
        if s.children.any (fun c => decide (3 < c.gracefulDelay)) then
          Except.error (CancelErr.tooSlow, s)
        else
          Except.ok { children := [],
                      procs := joinAll (s.children.map gracefulled) s.procs,
                      cancelled := true }

inductive ExitKind
  | normal
  | errored
  | cancelledSig
  deriving DecidableEq

/-- Teardown via cancel() as run by __aexit__ for a body that raised or was
cancelled: a cancel() failure is caught by the outer handler, which waits on
all subactors again and re-raises the teardown error. -/
def teardownViaCancel (s : NState) : Option (NState × Option CancelErr) :=
  match cancelModel false s with
  | Except.ok s2 => some (s2, none)
  | Except.error (e, s2) =>
      match waitModel s2 with
      | some s3 => some (s3, some e)
      | none => none

/-- ActorNursery.__aexit__: on an error or a cancellation signal from the
body, cancel() under a shielded scope; on normal exit, wait().  The result
pairs the final state with the teardown error that re-raises, and is none
when teardown never completes (a hung wait on a child that never exits). -/
def aexitModel (k : ExitKind) (s : NState) :
    Option (NState × Option CancelErr) :=
  match k with
  | ExitKind.normal =>
      match waitModel s with
      | some s2 => some (s2, none)
      | none => none
  | ExitKind.errored => teardownViaCancel s
  | ExitKind.cancelledSig => teardownViaCancel s

/-! ## _trionics.py: wait_for_result operation order -/

inductive WaitOp
  | cancelActor
  | harvestResult
  | warnUnexhausted
  | drainStream
  deriving DecidableEq

/-- Operation trace of wait_for_result(portal, actor) in ActorNursery.wait:
portal.cancel_actor first, then awaiting the final result via
portal.result; when the harvested result is an async generator, a warning is
logged and the stream is blindly drained under a 1 second deadline. -/
def waitForResultTrace (resultIsStream : Bool) : List WaitOp :=
  [WaitOp.cancelActor, WaitOp.harvestResult]
    ++ (if resultIsStream then [WaitOp.warnUnexhausted, WaitOp.drainStream]
        else [])

theorem dictGet_dictSet_self {α β : Type} [DecidableEq α]
    (d : List (α × β)) (k : α) (v : β) : dictGet (dictSet d k v) k = some v := by
  induction d with
  | nil => simp [dictSet, dictGet]
  | cons p rest ih =>
    by_cases h : p.1 = k
    · simp [dictSet, dictGet, h]
    · simp [dictSet, dictGet, h, ih]

theorem dictGet_dictSet_ne {α β : Type} [DecidableEq α]
    (d : List (α × β)) (k j : α) (v : β) (hne : k ≠ j) :
    dictGet (dictSet d k v) j = dictGet d j := by
  induction d with
  | nil => simp [dictSet, dictGet, hne]
  | cons p rest ih =>
    by_cases h : p.1 = k
    · subst h
      simp [dictSet, dictGet, hne]
    · simp only [dictSet, if_neg h]
      by_cases h2 : p.1 = j
      · simp [dictGet, h2]
      · simp [dictGet, h2, ih]

theorem dictSet_cons_pos {α β : Type} [DecidableEq α]
    (p : α × β) (rest : List (α × β)) (v : β) :
    dictSet (p :: rest) p.1 v = (p.1, v) :: rest := by
  simp [dictSet]

theorem mem_dictKeys_dictSet {α β : Type} [DecidableEq α]
    (d : List (α × β)) (k j : α) (v : β) :
    j ∈ dictKeys (dictSet d k v) ↔ j ∈ dictKeys d ∨ j = k := by
  induction d with
  | nil => simp [dictSet, dictKeys, eq_comm]
  | cons p rest ih =>
    have ih2 : j ∈ List.map Prod.fst (dictSet rest k v)
        ↔ j ∈ List.map Prod.fst rest ∨ j = k := by
      simpa [dictKeys] using ih
    by_cases h : p.1 = k
    · subst h
      rw [dictSet_cons_pos]
      simp only [dictKeys, List.map_cons, List.mem_cons]
      tauto
    · simp only [dictSet, if_neg h, dictKeys, List.map_cons, List.mem_cons]
      rw [show List.map Prod.fst (dictSet rest k v)
            = dictKeys (dictSet rest k v) from rfl] at ih2 ⊢
      rw [ih2]
      tauto

theorem nodup_dictKeys_dictSet {α β : Type} [DecidableEq α]
    (d : List (α × β)) (k : α) (v : β) (hnd : (dictKeys d).Nodup) :
    (dictKeys (dictSet d k v)).Nodup := by
  induction d with
  | nil => simp [dictSet, dictKeys]
  | cons p rest ih =>
    simp only [dictKeys, List.map_cons, List.nodup_cons] at hnd
    by_cases h : p.1 = k
    · subst h
      rw [dictSet_cons_pos]
      simpa [dictKeys, List.nodup_cons] using hnd
    · have hrest := ih hnd.2
      simp only [dictSet, if_neg h, dictKeys, List.map_cons, List.nodup_cons]
      refine ⟨?_, hrest⟩
      intro hmem
      rcases (mem_dictKeys_dictSet rest k p.1 v).mp hmem with hm | hm
      · exact hnd.1 hm
      · exact h hm

theorem dictGet_eq_none_of_not_mem_keys {α β : Type} [DecidableEq α]
    (d : List (α × β)) (k : α) (hk : k ∉ dictKeys d) : dictGet d k = none := by
  induction d with
  | nil => rfl
  | cons p rest ih =>
    simp only [dictKeys, List.map_cons, List.mem_cons] at hk
    push_neg at hk
    have h1 : p.1 ≠ k := fun h => hk.1 h.symm
    simp [dictGet, h1, ih (by simpa [dictKeys] using hk.2)]

theorem dictGet_isSome_iff_mem_keys {α β : Type} [DecidableEq α]
    (d : List (α × β)) (k : α) : (dictGet d k).isSome = true ↔ k ∈ dictKeys d := by
  induction d with
  | nil => simp [dictGet, dictKeys]
  | cons p rest ih =>
    by_cases h : p.1 = k
    · simp [dictGet, dictKeys, h]
    · simp [dictGet, dictKeys, h, ih]
      intro he
      exact absurd he.symm h

theorem dictGet_accumulatePacket (packet : Payload) (ctxs : List Ctx)
    (acc : List (Ctx × Payload)) (c : Ctx) (hnd : ctxs.Nodup) :
    dictGet (accumulatePacket packet ctxs acc) c =
      if c ∈ ctxs then some (dictUpdate ((dictGet acc c).getD []) packet)
      else dictGet acc c := by
  induction ctxs generalizing acc with
  | nil => simp [accumulatePacket]
  | cons c0 rest ih =>
    simp only [List.nodup_cons] at hnd
    rw [accumulatePacket, ih _ hnd.2]
    by_cases hc : c = c0
    · subst hc
      simp [hnd.1, dictGet_dictSet_self]
    · by_cases hm : c ∈ rest
      · simp [hm, hc, dictGet_dictSet_ne _ _ _ _ (fun h => hc h.symm)]
      · simp [hm, hc, dictGet_dictSet_ne _ _ _ _ (fun h => hc h.symm)]

theorem nodup_keys_accumulatePacket (packet : Payload) (ctxs : List Ctx)
    (acc : List (Ctx × Payload)) (hnd : (dictKeys acc).Nodup) :
    (dictKeys (accumulatePacket packet ctxs acc)).Nodup := by
  induction ctxs generalizing acc with
  | nil => simpa [accumulatePacket] using hnd
  | cons c0 rest ih =>
    rw [accumulatePacket]
    exact ih _ (nodup_dictKeys_dictSet _ _ _ hnd)

theorem nodup_keys_buildCtxPayloadsAux (pk : Topic → Nat → Payload)
    (subs : List (Topic × List Ctx)) (published : List (Topic × Nat))
    (acc : List (Ctx × Payload)) (hnd : (dictKeys acc).Nodup) :
    (dictKeys (buildCtxPayloadsAux pk subs published acc)).Nodup := by
  induction published generalizing acc with
  | nil => simpa [buildCtxPayloadsAux] using hnd
  | cons td rest ih =>
    rw [buildCtxPayloadsAux]
    exact ih _ (nodup_keys_accumulatePacket _ _ _ hnd)

theorem dictGet_buildCtxPayloadsAux (pk : Topic → Nat → Payload)
    (subs : List (Topic × List Ctx)) (published : List (Topic × Nat))
    (acc : List (Ctx × Payload)) (c : Ctx)
    (hsub : ∀ t, ((dictGet subs t).getD []).Nodup) :
    dictGet (buildCtxPayloadsAux pk subs published acc) c =
      (subscriberPackets pk subs c published).foldl
        (fun o p => some (dictUpdate (o.getD []) p)) (dictGet acc c) := by
  induction published generalizing acc with
  | nil => simp [buildCtxPayloadsAux, subscriberPackets]
  | cons td rest ih =>
    rw [buildCtxPayloadsAux, ih]
    rw [dictGet_accumulatePacket _ _ _ _ (hsub td.1)]
    by_cases hm : c ∈ (dictGet subs td.1).getD []
    · simp [subscriberPackets, hm, List.filter_cons]
    · simp [subscriberPackets, hm, List.filter_cons]

theorem foldl_mergeStep (ps : List Payload) (m : Payload) :
    ps.foldl (fun o p => some (dictUpdate (o.getD []) p)) (some m)
      = some (ps.foldl (fun acc p => dictUpdate acc p) m) := by
  induction ps generalizing m with
  | nil => rfl
  | cons p rest ih => simp [List.foldl_cons, ih]

theorem recvOf_singleton_dict (l : List (Ctx × Payload)) (c : Ctx)
    (hnd : (dictKeys l).Nodup) :
    recvOf c l = (dictGet l c).toList := by
  induction l with
  | nil => simp [recvOf, dictGet]
  | cons q rest ih =>
    simp only [dictKeys, List.map_cons, List.nodup_cons] at hnd
    by_cases h : q.1 = c
    · subst h
      have hnone : dictGet rest q.1 = none :=
        dictGet_eq_none_of_not_mem_keys _ _ hnd.1
      have hrest : recvOf q.1 rest = [] := by
        rw [ih hnd.2, hnone]
        rfl
      simp [recvOf, dictGet, List.filterMap_cons] at hrest ⊢
      exact hrest
    · have := ih hnd.2
      simp only [recvOf, List.filterMap_cons, if_neg h] at this ⊢
      simpa [dictGet, h] using this

theorem dictGet_eq_some_mem {α β : Type} [DecidableEq α]
    (d : List (α × β)) (k : α) (v : β) (h : dictGet d k = some v) : (k, v) ∈ d := by
  induction d with
  | nil => simp [dictGet] at h
  | cons p rest ih =>
    obtain ⟨a, b⟩ := p
    by_cases hk : a = k
    · subst hk
      simp [dictGet] at h
      subst h
      exact List.mem_cons_self _ _
    · simp only [dictGet, if_neg hk] at h
      exact List.mem_cons_of_mem _ (ih h)

theorem recvOf_flatten (c : Ctx) (L : List (List (Ctx × Payload))) :
    recvOf c L.flatten = (L.map (recvOf c)).flatten := by
  induction L with
  | nil => rfl
  | cons l rest ih =>
    simp only [List.flatten_cons, recvOf, List.filterMap_append, List.map_cons]
    rw [show List.filterMap (fun q => if q.1 = c then some q.2 else none) rest.flatten
          = recvOf c rest.flatten from rfl, ih]

theorem flatten_toList_eq_filterMap {σ : Type} (f : σ → Option Payload) (l : List σ) :
    (l.map (fun x => (f x).toList)).flatten = l.filterMap f := by
  induction l with
  | nil => rfl
  | cons x rest ih =>
    cases h : f x <;> simp [List.filterMap_cons, h, ih]

/-- C6: for a fixed set of subscribers, each value yielded by the producer
results in at most one send per subscriber (the ctx_payloads keys are unique);
the payload sent to a subscriber is the dict-merge of the packetizer outputs
for exactly those yielded topics the subscriber is subscribed to, and a
subscriber with no matching topic receives nothing for that yield; over a whole
run, the sequence of payloads one subscriber receives is the filtered
subsequence of the producer yields, in producer-yield order. -/
theorem C6_fan_out (pk : Topic → Nat → Payload) (subs : List (Topic × List Ctx))
    (published : List (Topic × Nat)) (yields : List (List (Topic × Nat))) (c : Ctx)
    (hsub : ∀ p ∈ subs, (Prod.snd p).Nodup) :
    (dictKeys (buildCtxPayloads pk subs published)).Nodup
    ∧ dictGet (buildCtxPayloads pk subs published) c =
        (if subscriberPackets pk subs c published = [] then none
         else some (mergeAll (subscriberPackets pk subs c published)))
    ∧ recvOf c (fanOutSendTrace pk subs yields)
        = yields.filterMap (fun pub => dictGet (buildCtxPayloads pk subs pub) c) := by
  have hs : ∀ t, ((dictGet subs t).getD []).Nodup := by
    intro t
    cases h : dictGet subs t with
    | none => simp
    | some v =>
      simpa using hsub _ (dictGet_eq_some_mem _ _ _ h)
  refine ⟨?_, ?_, ?_⟩
  · exact nodup_keys_buildCtxPayloadsAux pk subs published [] (by simp [dictKeys])
  · rw [buildCtxPayloads, dictGet_buildCtxPayloadsAux _ _ _ _ _ hs]
    have hnone : dictGet ([] : List (Ctx × Payload)) c = none := rfl
    rw [hnone]
    cases hps : subscriberPackets pk subs c published with
    | nil => simp
    | cons p rest =>
      simp only [List.foldl_cons, if_neg (by simp [hps] : ¬p :: rest = [])]
      rw [foldl_mergeStep]
      simp [mergeAll]
  · rw [fanOutSendTrace, recvOf_flatten]
    have hmap : (yields.map (fun pub => buildCtxPayloads pk subs pub)).map (recvOf c)
        = yields.map (fun pub => (dictGet (buildCtxPayloads pk subs pub) c).toList) := by
      rw [List.map_map]
      refine List.map_congr_left ?_
      intro pub _
      exact recvOf_singleton_dict _ _
        (nodup_keys_buildCtxPayloadsAux pk subs pub [] (by simp [dictKeys]))
    rw [hmap, flatten_toList_eq_filterMap]

/-- Witness for C6 at a concrete subscription map, yielded mapping and run. -/
theorem C6_fan_out_witness :
    (dictKeys (buildCtxPayloads defaultPacketizer [(1, [10, 11]), (2, [10])]
        [(1, 5), (2, 7)])).Nodup
    ∧ dictGet (buildCtxPayloads defaultPacketizer [(1, [10, 11]), (2, [10])]
        [(1, 5), (2, 7)]) 10 =
        (if subscriberPackets defaultPacketizer [(1, [10, 11]), (2, [10])] 10
            [(1, 5), (2, 7)] = [] then none
         else some (mergeAll (subscriberPackets defaultPacketizer
            [(1, [10, 11]), (2, [10])] 10 [(1, 5), (2, 7)])))
    ∧ recvOf 10 (fanOutSendTrace defaultPacketizer [(1, [10, 11]), (2, [10])]
        [[(1, 5), (2, 7)], [(3, 9)]])
        = [[(1, 5), (2, 7)], [(3, 9)]].filterMap
            (fun pub => dictGet (buildCtxPayloads defaultPacketizer
                [(1, [10, 11]), (2, [10])] pub) 10) :=
  C6_fan_out defaultPacketizer [(1, [10, 11]), (2, [10])] [(1, 5), (2, 7)]
    [[(1, 5), (2, 7)], [(3, 9)]] 10 (by decide)

theorem mem_addSub (d : List (Topic × List Ctx)) (t : Topic) (c : Ctx)
    (u : Topic) (c2 : Ctx) :
    c2 ∈ (dictGet (addSub d t c) u).getD [] ↔
      c2 ∈ (dictGet d u).getD [] ∨ (c2 = c ∧ u = t) := by
  by_cases hu : u = t
  · subst hu
    rw [addSub, dictGet_dictSet_self]
    by_cases hc : c ∈ (dictGet d u).getD []
    · simp only [if_pos hc, Option.getD_some]
      constructor
      · exact fun h => Or.inl h
      · rintro (h | ⟨h, -⟩)
        · exact h
        · exact h ▸ hc
    · simp only [if_neg hc, Option.getD_some, List.mem_append, List.mem_singleton]
      tauto
  · rw [addSub, dictGet_dictSet_ne _ _ _ _ (fun h => hu h.symm)]
    simp [hu]

theorem dictGet_addSub_ne (d : List (Topic × List Ctx)) (t : Topic) (c : Ctx)
    (u : Topic) (hu : u ≠ t) : dictGet (addSub d t c) u = dictGet d u := by
  rw [addSub, dictGet_dictSet_ne _ _ _ _ (fun h => hu h.symm)]

theorem isSome_addSub (d : List (Topic × List Ctx)) (t : Topic) (c : Ctx)
    (u : Topic) :
    (dictGet (addSub d t c) u).isSome = true ↔
      (dictGet d u).isSome = true ∨ u = t := by
  by_cases hu : u = t
  · subst hu
    rw [addSub, dictGet_dictSet_self]
    simp
  · rw [dictGet_addSub_ne _ _ _ _ hu]
    simp [hu]

theorem mem_addSubs (d : List (Topic × List Ctx)) (topics : List Topic) (c : Ctx)
    (u : Topic) (c2 : Ctx) :
    c2 ∈ (dictGet (addSubs d topics c) u).getD [] ↔
      c2 ∈ (dictGet d u).getD [] ∨ (c2 = c ∧ u ∈ topics) := by
  induction topics generalizing d with
  | nil => simp [addSubs]
  | cons t rest ih =>
    rw [addSubs, ih, mem_addSub]
    simp only [List.mem_cons]
    tauto

theorem isSome_addSubs (d : List (Topic × List Ctx)) (topics : List Topic)
    (c : Ctx) (u : Topic) :
    (dictGet (addSubs d topics c) u).isSome = true ↔
      (dictGet d u).isSome = true ∨ u ∈ topics := by
  induction topics generalizing d with
  | nil => simp [addSubs]
  | cons t rest ih =>
    rw [addSubs, ih, isSome_addSub]
    simp only [List.mem_cons]
    tauto

theorem dictGet_addSubs_not_mem (d : List (Topic × List Ctx))
    (topics : List Topic) (c : Ctx) (u : Topic) (hu : u ∉ topics) :
    dictGet (addSubs d topics c) u = dictGet d u := by
  induction topics generalizing d with
  | nil => rfl
  | cons t rest ih =>
    simp only [List.mem_cons] at hu
    push_neg at hu
    rw [addSubs, ih _ hu.2, dictGet_addSub_ne _ _ _ _ hu.1]

theorem mem_dictSet_elim {α β : Type} [DecidableEq α]
    (d : List (α × β)) (k : α) (v : β) (q : α × β) (h : q ∈ dictSet d k v) :
    q ∈ d ∨ q = (k, v) := by
  induction d with
  | nil => simpa [dictSet] using h
  | cons p rest ih =>
    by_cases hk : p.1 = k
    · subst hk
      rw [dictSet_cons_pos] at h
      rcases List.mem_cons.mp h with h | h
      · exact Or.inr h
      · exact Or.inl (List.mem_cons_of_mem _ h)
    · simp only [dictSet, if_neg hk] at h
      rcases List.mem_cons.mp h with h | h
      · exact Or.inl (h ▸ List.mem_cons_self _ _)
      · rcases ih h with h2 | h2
        · exact Or.inl (List.mem_cons_of_mem _ h2)
        · exact Or.inr h2

theorem nodupSets_addSub (d : List (Topic × List Ctx)) (t : Topic) (c : Ctx)
    (hsets : ∀ p ∈ d, (Prod.snd p).Nodup) :
    ∀ p ∈ addSub d t c, (Prod.snd p).Nodup := by
  intro p hp
  rcases mem_dictSet_elim _ _ _ _ hp with h | h
  · exact hsets _ h
  · subst h
    by_cases hc : c ∈ (dictGet d t).getD []
    · simp only [if_pos hc]
      cases hg : dictGet d t with
      | none => simp
      | some s => simpa [hg] using hsets _ (dictGet_eq_some_mem _ _ _ hg)
    · simp only [if_neg hc]
      cases hg : dictGet d t with
      | none => simp
      | some s =>
        have hs : s.Nodup := by simpa using hsets _ (dictGet_eq_some_mem _ _ _ hg)
        simp only [hg, Option.getD_some] at hc ⊢
        exact List.Nodup.append hs (List.nodup_singleton c)
          (by simpa [List.disjoint_singleton] using hc)

theorem nodupSets_addSubs (d : List (Topic × List Ctx)) (topics : List Topic)
    (c : Ctx) (hsets : ∀ p ∈ d, (Prod.snd p).Nodup) :
    ∀ p ∈ addSubs d topics c, (Prod.snd p).Nodup := by
  induction topics generalizing d with
  | nil => exact hsets
  | cons t rest ih => exact ih _ (nodupSets_addSub d t c hsets)

theorem nodupKeys_addSubs (d : List (Topic × List Ctx)) (topics : List Topic)
    (c : Ctx) (hk : (dictKeys d).Nodup) :
    (dictKeys (addSubs d topics c)).Nodup := by
  induction topics generalizing d with
  | nil => exact hk
  | cons t rest ih => exact ih _ (nodup_dictKeys_dictSet _ _ _ hk)

theorem pruneSub_fst (topics : List Topic) (c : Ctx) (p q : Topic × List Ctx)
    (h : pruneSub topics c p = some q) : q.1 = p.1 := by
  rw [pruneSub] at h
  by_cases h1 : p.1 ∈ topics
  · rw [if_pos h1] at h
    cases h
    rfl
  · rw [if_neg h1] at h
    by_cases h2 : (p.2.erase c).isEmpty = true
    · rw [if_pos h2] at h
      cases h
    · rw [if_neg h2] at h
      cases h
      rfl

theorem mem_keys_filterMap_pruneSub (d1 : List (Topic × List Ctx))
    (topics : List Topic) (c : Ctx) (u : Topic)
    (h : u ∈ dictKeys (d1.filterMap (pruneSub topics c))) : u ∈ dictKeys d1 := by
  simp only [dictKeys, List.mem_map] at h ⊢
  obtain ⟨q, hq, hqu⟩ := h
  obtain ⟨p, hp, hpq⟩ := List.mem_filterMap.mp hq
  exact ⟨p, hp, by rw [← hqu, pruneSub_fst _ _ _ _ hpq]⟩

theorem dictGet_filterMap_pruneSub (d1 : List (Topic × List Ctx))
    (topics : List Topic) (c : Ctx) (u : Topic)
    (hnd : (dictKeys d1).Nodup) :
    dictGet (d1.filterMap (pruneSub topics c)) u =
      if u ∈ topics then dictGet d1 u
      else (dictGet d1 u).bind
        (fun s => if (s.erase c).isEmpty then none else some (s.erase c)) := by
  induction d1 with
  | nil => by_cases h : u ∈ topics <;> simp [dictGet, h]
  | cons p rest ih =>
    simp only [dictKeys, List.map_cons, List.nodup_cons] at hnd
    have ihr := ih hnd.2
    by_cases hpu : p.1 = u
    · subst hpu
      have hnone : dictGet (rest.filterMap (pruneSub topics c)) p.1 = none := by
        apply dictGet_eq_none_of_not_mem_keys
        intro hmem
        exact hnd.1 (mem_keys_filterMap_pruneSub _ _ _ _ hmem)
      have hgetcons : dictGet (p :: rest) p.1 = some p.2 := by
        simp [dictGet]
      by_cases h1 : p.1 ∈ topics
      · have hf : pruneSub topics c p = some p := by
          rw [pruneSub, if_pos h1]
        rw [List.filterMap_cons, hf, if_pos h1, hgetcons]
        simp [dictGet]
      · by_cases h2 : (p.2.erase c).isEmpty = true
        · have hf : pruneSub topics c p = none := by
            rw [pruneSub, if_neg h1, if_pos h2]
          rw [List.filterMap_cons, hf, if_neg h1, hgetcons, hnone]
          rw [show ((some p.2).bind fun s =>
                if (s.erase c).isEmpty = true then none
                else some (s.erase c)) =
              if (p.2.erase c).isEmpty = true then none
              else some (p.2.erase c) from rfl, if_pos h2]
        · have hf : pruneSub topics c p = some (p.1, p.2.erase c) := by
            rw [pruneSub, if_neg h1, if_neg h2]
          rw [List.filterMap_cons, hf, if_neg h1, hgetcons]
          rw [show ((some p.2).bind fun s =>
                if (s.erase c).isEmpty = true then none
                else some (s.erase c)) =
              if (p.2.erase c).isEmpty = true then none
              else some (p.2.erase c) from rfl, if_neg h2]
          simp [dictGet]
    · have hstep : dictGet ((p :: rest).filterMap (pruneSub topics c)) u
          = dictGet (rest.filterMap (pruneSub topics c)) u := by
        rw [List.filterMap_cons]
        cases hf : pruneSub topics c p with
        | none => rfl
        | some q =>
          have : q.1 ≠ u := by
            rw [pruneSub_fst _ _ _ _ hf]
            exact hpu
          simp [dictGet, this]
      rw [hstep, ihr]
      simp [dictGet, hpu]

/-- C9: modify_subs makes the subscription absolute: afterwards the ctx is a
member of the subscriber set of a topic exactly when the topic was requested;
every other subscriber's memberships are unchanged; and a topic key survives
exactly when it was requested or still has another subscriber, so an abandoned
topic stops being reported by get_topics. -/
theorem C9_modify_subs (d : List (Topic × List Ctx)) (topics : List Topic)
    (c : Ctx) (hk : (dictKeys d).Nodup)
    (hsets : ∀ p ∈ d, (Prod.snd p).Nodup) :
    (∀ t, c ∈ (dictGet (modify_subs d topics c) t).getD [] ↔ t ∈ topics)
    ∧ (∀ t c2, c2 ≠ c →
        (c2 ∈ (dictGet (modify_subs d topics c) t).getD []
          ↔ c2 ∈ (dictGet d t).getD []))
    ∧ (∀ t, (dictGet (modify_subs d topics c) t).isSome = true ↔
        (t ∈ topics ∨ ((dictGet d t).getD []).erase c ≠ [])) := by
  have hk1 : (dictKeys (addSubs d topics c)).Nodup := nodupKeys_addSubs d topics c hk
  have hs1 : ∀ p ∈ addSubs d topics c, (Prod.snd p).Nodup :=
    nodupSets_addSubs d topics c hsets
  have hget : ∀ t, dictGet (modify_subs d topics c) t =
      if t ∈ topics then dictGet (addSubs d topics c) t
      else (dictGet (addSubs d topics c) t).bind
        (fun s => if (s.erase c).isEmpty then none else some (s.erase c)) :=
    fun t => dictGet_filterMap_pruneSub _ topics c t hk1
  have hb : ∀ s : List Ctx,
      ((some s).bind fun s2 =>
        if (s2.erase c).isEmpty = true then none else some (s2.erase c)) =
      if (s.erase c).isEmpty = true then none else some (s.erase c) :=
    fun s => rfl
  refine ⟨?_, ?_, ?_⟩
  · intro t
    rw [hget t]
    by_cases ht : t ∈ topics
    · simp only [if_pos ht, ht, iff_true]
      exact (mem_addSubs d topics c t c).mpr (Or.inr ⟨rfl, ht⟩)
    · rw [if_neg ht]
      simp only [ht, iff_false]
      cases hg : dictGet (addSubs d topics c) t with
      | none => simp
      | some s =>
        have hsnd : s.Nodup := by
          simpa using hs1 _ (dictGet_eq_some_mem _ _ _ hg)
        rw [hb s]
        by_cases he : (s.erase c).isEmpty = true
        · rw [if_pos he]
          simp
        · rw [if_neg he]
          simp only [Option.getD_some]
          exact hsnd.not_mem_erase
  · intro t c2 hc2
    rw [hget t]
    by_cases ht : t ∈ topics
    · rw [if_pos ht, mem_addSubs]
      simp [hc2]
    · rw [if_neg ht, dictGet_addSubs_not_mem d topics c t ht]
      cases hg : dictGet d t with
      | none => simp
      | some s =>
        rw [hb s]
        by_cases he : (s.erase c).isEmpty = true
        · have hse : s.erase c = [] := List.isEmpty_iff.mp he
          rw [if_pos he]
          simp only [Option.getD_none, Option.getD_some, List.not_mem_nil,
            false_iff]
          intro hmem
          have h2 : c2 ∈ s.erase c := (List.mem_erase_of_ne hc2).mpr hmem
          rw [hse] at h2
          exact List.not_mem_nil c2 h2
        · rw [if_neg he]
          simp only [Option.getD_some]
          exact List.mem_erase_of_ne hc2
  · intro t
    rw [hget t]
    by_cases ht : t ∈ topics
    · simp only [if_pos ht, ht, true_or, iff_true]
      exact (isSome_addSubs d topics c t).mpr (Or.inr ht)
    · rw [if_neg ht, dictGet_addSubs_not_mem d topics c t ht]
      cases hg : dictGet d t with
      | none => simp [ht]
      | some s =>
        rw [hb s]
        by_cases he : (s.erase c).isEmpty = true
        · have hse : s.erase c = [] := List.isEmpty_iff.mp he
          rw [if_pos he]
          simp [ht, hse]
        · have hne : s.erase c ≠ [] := fun h => he (List.isEmpty_iff.mpr h)
          rw [if_neg he]
          simp [ht, hne]

/-- Witness for C9 at a concrete subscription map: ctx 7 moves from topics
1 and 2 to topics 2 and 4; topic 3 keeps its other subscriber. -/
theorem C9_modify_subs_witness :
    (7 ∈ (dictGet (modify_subs [(1, [7, 8]), (2, [7]), (3, [9])] [2, 4] 7) 1).getD []
      ↔ 1 ∈ [2, 4])
    ∧ (8 ∈ (dictGet (modify_subs [(1, [7, 8]), (2, [7]), (3, [9])] [2, 4] 7) 1).getD []
      ↔ 8 ∈ (dictGet [(1, [7, 8]), (2, [7]), (3, [9])] 1).getD [])
    ∧ ((dictGet (modify_subs [(1, [7, 8]), (2, [7]), (3, [9])] [2, 4] 7) 3).isSome = true
      ↔ (3 ∈ [2, 4] ∨ ((dictGet [(1, [7, 8]), (2, [7]), (3, [9])] 3).getD []).erase 7 ≠ [])) :=
  ⟨(C9_modify_subs [(1, [7, 8]), (2, [7]), (3, [9])] [2, 4] 7
      (by decide) (by decide)).1 1,
   (C9_modify_subs [(1, [7, 8]), (2, [7]), (3, [9])] [2, 4] 7
      (by decide) (by decide)).2.1 1 8 (by decide),
   (C9_modify_subs [(1, [7, 8]), (2, [7]), (3, [9])] [2, 4] 7
      (by decide) (by decide)).2.2 3⟩

/-- C2 counterexample: when the feed task fails with BrokenResourceError
twice and then terminates, the wrapper performs two respawns and completes
normally; the second transient failure is retried rather than propagated, so
the producer does not respawn the generator at most once. -/
theorem C2_counterexample :
    respawnLoop
      [RunOutcome.brokenResource, RunOutcome.brokenResource, RunOutcome.ok] 0
      = LoopResult.completed 2 := by
  decide

/-- C2 amended: the producer respawns the generator on every
trio.BrokenResourceError, without bound; a BrokenResourceError is never
surfaced to the caller, while any other exception propagates after any number
of transient failures. -/
theorem C2_respawn_unbounded (k e n : Nat) (rest : List RunOutcome) :
    respawnLoop
        (List.replicate k RunOutcome.brokenResource ++ RunOutcome.ok :: rest) n
      = LoopResult.completed (n + k)
    ∧ respawnLoop
        (List.replicate k RunOutcome.brokenResource ++ RunOutcome.raised e :: rest) n
      = LoopResult.propagated e := by
  induction k generalizing n with
  | zero => simp [respawnLoop]
  | succ m ih =>
    refine ⟨?_, ?_⟩
    · rw [List.replicate_succ, List.cons_append, respawnLoop]
      rw [(ih (n + 1)).1]
      have harith : n + 1 + m = n + (m + 1) := by omega
      rw [harith]
    · rw [List.replicate_succ, List.cons_append, respawnLoop]
      exact (ih (n + 1)).2

/-- C10: the slot-mutex map is anchored under the single statespace key via
setdefault, so the first decorated publisher called in an actor installs its
decoration-time lock map and a later publisher decorated with a disjoint
non-empty task-name set reuses that same map; calling it with one of its own
declared task names then raises KeyError. -/
theorem C10_shared_lockmap_keyerror (tasksA tasksB : List Nat) (a b : Nat)
    (hb : b ∈ tasksB) (hdisj : ∀ x ∈ tasksB, x ∉ tasksA) :
    (wrapperSlotLookup
        (wrapperSlotLookup [] (decorationLockMap 0 tasksA) (some a)).1
        (decorationLockMap 100 tasksB) (some b)).2 = Except.error ()
    ∧ dictGet (wrapperSlotLookup
        (wrapperSlotLookup [] (decorationLockMap 0 tasksA) (some a)).1
        (decorationLockMap 100 tasksB) (some b)).1 "_pubtask2lock"
      = some (decorationLockMap 0 tasksA) := by
  have hss1 : (wrapperSlotLookup [] (decorationLockMap 0 tasksA) (some a)).1
      = [("_pubtask2lock", decorationLockMap 0 tasksA)] := by
    rfl
  have hget : dictGet [("_pubtask2lock", decorationLockMap 0 tasksA)]
      "_pubtask2lock" = some (decorationLockMap 0 tasksA) := by
    simp [dictGet]
  have hlookup : dictGet (decorationLockMap 0 tasksA) (some b) = none := by
    apply dictGet_eq_none_of_not_mem_keys
    intro hmem
    simp only [decorationLockMap, dictKeys, List.map_cons, List.map_map,
      List.mem_cons] at hmem
    rcases hmem with hmem | hmem
    · exact Option.noConfusion hmem
    · obtain ⟨x, hx, hxb⟩ := List.mem_map.mp hmem
      have hxb2 : x = b := by
        simpa using congrArg (fun o => o.getD 0)
          (show (some x : Option Nat) = some b from hxb)
      exact hdisj b hb (hxb2 ▸ hx)
  constructor
  · rw [hss1]
    show (match dictGet (setdefaultLockMap
        [("_pubtask2lock", decorationLockMap 0 tasksA)] "_pubtask2lock"
        (decorationLockMap 100 tasksB)).2 (some b) with
      | some l => (Except.ok l : Except Unit Nat)
      | none => Except.error ()) = Except.error ()
    rw [setdefaultLockMap, hget]
    simp only [hlookup]
  · rw [hss1]
    show dictGet (setdefaultLockMap
        [("_pubtask2lock", decorationLockMap 0 tasksA)] "_pubtask2lock"
        (decorationLockMap 100 tasksB)).1 "_pubtask2lock"
      = some (decorationLockMap 0 tasksA)
    rw [setdefaultLockMap, hget]
    exact hget

/-- Witness for C10: two publishers decorated with task sets containing 1 and
2 respectively; after the first is called, calling the second with its own
task name 2 raises KeyError while the anchored map stays the first one. -/
theorem C10_witness :
    (wrapperSlotLookup
        (wrapperSlotLookup [] (decorationLockMap 0 [1]) (some 1)).1
        (decorationLockMap 100 [2]) (some 2)).2 = Except.error ()
    ∧ dictGet (wrapperSlotLookup
        (wrapperSlotLookup [] (decorationLockMap 0 [1]) (some 1)).1
        (decorationLockMap 100 [2]) (some 2)).1 "_pubtask2lock"
      = some (decorationLockMap 0 [1]) :=
  C10_shared_lockmap_keyerror [1] [2] 1 2 (by decide) (by decide)

theorem setPhase_same (f : Nat → Phase) (t : Nat) (ph : Phase) :
    setPhase f t ph t = ph := by
  simp [setPhase]

theorem setPhase_other (f : Nat → Phase) (t u : Nat) (ph : Phase)
    (h : u ≠ t) : setPhase f t ph u = f u := by
  simp [setPhase, h]

theorem slotInv_step (s s2 : SlotState) (hinv : SlotInv s)
    (hstep : SlotStep s s2) : SlotInv s2 := by
  obtain ⟨hp, hq, hn⟩ := hinv
  cases hstep with
  | arriveFree t hfree hout =>
    refine ⟨?_, ?_, hn⟩
    · intro u
      show setPhase s.phase t Phase.producing u = Phase.producing ↔ some t = some u
      by_cases hu : u = t
      · subst hu
        rw [setPhase_same]
        simp
      · rw [setPhase_other _ _ _ _ hu]
        constructor
        · intro he
          rw [(hp u).mp he] at hfree
          exact Option.noConfusion hfree
        · intro he
          exact absurd (Option.some.inj he).symm hu
    · intro u hu
      show setPhase s.phase t Phase.producing u = Phase.waiting
      have hut : u ≠ t := by
        intro he
        subst he
        rw [hq u hu] at hout
        exact Phase.noConfusion hout
      rw [setPhase_other _ _ _ _ hut]
      exact hq u hu
  | arriveQueue t h0 hhold hout =>
    refine ⟨?_, ?_, ?_⟩
    · intro u
      show setPhase s.phase t Phase.waiting u = Phase.producing ↔ s.holder = some u
      by_cases hu : u = t
      · subst hu
        rw [setPhase_same]
        constructor
        · intro hcontra
          exact Phase.noConfusion hcontra
        · intro hsome
          have h2 : s.phase u = Phase.producing := (hp u).mpr hsome
          rw [hout] at h2
          exact Phase.noConfusion h2
      · rw [setPhase_other _ _ _ _ hu]
        exact hp u
    · intro u hu
      show setPhase s.phase t Phase.waiting u = Phase.waiting
      rcases List.mem_append.mp hu with hu2 | hu2
      · have hut : u ≠ t := by
          intro he
          subst he
          rw [hq u hu2] at hout
          exact Phase.noConfusion hout
        rw [setPhase_other _ _ _ _ hut]
        exact hq u hu2
      · have hut : u = t := List.mem_singleton.mp hu2
        subst hut
        rw [setPhase_same]
    · show (s.queue ++ [t]).Nodup
      have htq : t ∉ s.queue := by
        intro hmem
        rw [hq t hmem] at hout
        exact Phase.noConfusion hout
      simpa [List.nodup_append] using ⟨hn, htq⟩
  | releaseEmpty t hhold hq0 =>
    refine ⟨?_, ?_, List.nodup_nil⟩
    · intro u
      show setPhase s.phase t Phase.finished u = Phase.producing ↔ none = some u
      by_cases hu : u = t
      · subst hu
        rw [setPhase_same]
        constructor
        · intro hcontra
          exact Phase.noConfusion hcontra
        · intro hsome
          exact Option.noConfusion hsome
      · rw [setPhase_other _ _ _ _ hu]
        constructor
        · intro he
          rw [(hp u).mp he] at hhold
          exact absurd (Option.some.inj hhold) hu
        · intro he
          exact Option.noConfusion he
    · intro u hu
      exact absurd hu (List.not_mem_nil u)
  | releaseHandoff t h rest hhold hqcons =>
    have hpt : s.phase t = Phase.producing := (hp t).mpr hhold
    have hhw : s.phase h = Phase.waiting := by
      refine hq h ?_
      rw [hqcons]
      exact List.mem_cons_self _ _
    have hht : h ≠ t := by
      intro he
      rw [he, hpt] at hhw
      exact Phase.noConfusion hhw
    have hrest_nodup : rest.Nodup := by
      rw [hqcons] at hn
      exact (List.nodup_cons.mp hn).2
    have hhrest : h ∉ rest := by
      rw [hqcons] at hn
      exact (List.nodup_cons.mp hn).1
    refine ⟨?_, ?_, hrest_nodup⟩
    · intro u
      show setPhase (setPhase s.phase t Phase.finished) h Phase.producing u
          = Phase.producing ↔ some h = some u
      by_cases hu : u = h
      · subst hu
        rw [setPhase_same]
        simp
      · rw [setPhase_other _ _ _ _ hu]
        by_cases hut : u = t
        · subst hut
          rw [setPhase_same]
          constructor
          · intro hcontra
            exact Phase.noConfusion hcontra
          · intro hsome
            exact absurd (Option.some.inj hsome).symm hu
        · rw [setPhase_other _ _ _ _ hut]
          constructor
          · intro he
            rw [(hp u).mp he] at hhold
            exact absurd (Option.some.inj hhold) hut
          · intro he
            exact absurd (Option.some.inj he).symm hu
    · intro u hu
      show setPhase (setPhase s.phase t Phase.finished) h Phase.producing u
          = Phase.waiting
      have huq : u ∈ s.queue := by
        rw [hqcons]
        exact List.mem_cons_of_mem _ hu
      have hut : u ≠ t := by
        intro he
        subst he
        rw [hq u huq] at hpt
        exact Phase.noConfusion hpt
      have huh : u ≠ h := fun he => hhrest (he ▸ hu)
      rw [setPhase_other _ _ _ _ huh, setPhase_other _ _ _ _ hut]
      exact hq u huq

theorem slotInv_reach (s : SlotState) (hr : SlotReach s) : SlotInv s := by
  induction hr with
  | init =>
    refine ⟨?_, ?_, List.nodup_nil⟩
    · intro t
      constructor
      · intro hcontra
        exact Phase.noConfusion hcontra
      · intro hsome
        exact Option.noConfusion hsome
    · intro t ht
      exact absurd ht (List.not_mem_nil t)
  | step hr0 hstep ih => exact slotInv_step _ _ ih hstep

/-- C7: for one (actor, task_name) slot of a decorated publisher, in every
reachable slot state at most one caller task is in the producing phase, the
producing task is the lock holder, and when the current producer releases the
lock with a non-empty queue, the longest-waiting queued caller (the queue
head, in arrival order) becomes the next producer. -/
theorem C7_slot_mutex (s s2 : SlotState) (hr : SlotReach s) :
    (∀ t u, s.phase t = Phase.producing → s.phase u = Phase.producing → t = u)
    ∧ (∀ t, s.phase t = Phase.producing → s.holder = some t)
    ∧ (∀ t h rest, s.holder = some t → s.queue = h :: rest →
        SlotStep s s2 → s2.phase t = Phase.finished →
        s2.holder = some h ∧ s2.phase h = Phase.producing) := by
  obtain ⟨hp, hq, hn⟩ := slotInv_reach s hr
  refine ⟨?_, ?_, ?_⟩
  · intro t u ht hu
    have h1 := (hp t).mp ht
    have h2 := (hp u).mp hu
    rw [h1] at h2
    exact Option.some.inj h2
  · intro t ht
    exact (hp t).mp ht
  · intro t h rest hhold hqcons hstep hfin
    cases hstep with
    | arriveFree t0 hfree hout =>
      rw [hhold] at hfree
      exact Option.noConfusion hfree
    | arriveQueue t0 h0 hhold0 hout =>
      have hpt : s.phase t = Phase.producing := (hp t).mpr hhold
      have htt0 : t ≠ t0 := by
        intro he
        rw [he, hout] at hpt
        exact Phase.noConfusion hpt
      rw [show (⟨s.holder, s.queue ++ [t0],
            setPhase s.phase t0 Phase.waiting⟩ : SlotState).phase
          = setPhase s.phase t0 Phase.waiting from rfl,
        setPhase_other _ _ _ _ htt0, hpt] at hfin
      exact absurd hfin (by intro hcontra; exact Phase.noConfusion hcontra)
    | releaseEmpty t0 hhold0 hq0 =>
      rw [hq0] at hqcons
      exact List.noConfusion hqcons
    | releaseHandoff t0 h2 rest2 hhold0 hqcons0 =>
      have ht0 : t0 = t := by
        rw [hhold] at hhold0
        exact (Option.some.inj hhold0).symm
      subst ht0
      rw [hqcons] at hqcons0
      have hh2 : h = h2 := (List.cons.inj hqcons0).1
      subst hh2
      exact ⟨rfl, setPhase_same _ _ _⟩

/-- Witness for C7: task 0 acquires the free slot, task 1 queues behind it,
and when task 0 releases, task 1 (the queue head) becomes the producer. -/
theorem C7_slot_mutex_witness :
    (⟨some 1, [],
      setPhase (setPhase (setPhase (setPhase (fun _ => Phase.outside)
        0 Phase.producing) 1 Phase.waiting) 0 Phase.finished)
        1 Phase.producing⟩ : SlotState).holder = some 1
    ∧ (⟨some 1, [],
      setPhase (setPhase (setPhase (setPhase (fun _ => Phase.outside)
        0 Phase.producing) 1 Phase.waiting) 0 Phase.finished)
        1 Phase.producing⟩ : SlotState).phase 1 = Phase.producing := by
  have r2 : SlotReach ⟨some 0, [1],
      setPhase (setPhase (fun _ => Phase.outside) 0 Phase.producing)
        1 Phase.waiting⟩ :=
    SlotReach.step
      (SlotReach.step SlotReach.init (SlotStep.arriveFree 0 rfl rfl))
      (SlotStep.arriveQueue 1 0 rfl (by decide))
  exact (C7_slot_mutex _ _ r2).2.2 0 1 [] rfl rfl
    (SlotStep.releaseHandoff 0 1 [] rfl rfl) (by decide)

theorem subactor_isSome (children : List WChild) (env : List (String × Nat))
    (hne : children ≠ []) :
    (dictGet (waitLoopFrameAux children env) "subactor").isSome = true := by
  induction children generalizing env with
  | nil => exact absurd rfl hne
  | cons c rest ih =>
    rw [waitLoopFrameAux]
    cases rest with
    | nil =>
      rw [waitLoopFrameAux]
      rw [dictGet_dictSet_ne _ _ _ _ (by decide)]
      rw [dictGet_dictSet_ne _ _ _ _ (by decide)]
      rw [dictGet_dictSet_self]
      rfl
    | cons c2 rest2 => exact ih _ (by simp)

/-- C8: for every nursery with at least one child in the cancel-after-result
set whose process is alive, the wait_for_result task can evaluate its logging
statement: the reference to subactor resolves at runtime through the
enclosing wait() frame (to the loop cell, not to the task's own actor
parameter), so no unbound-variable error is raised. -/
theorem C8_subactor_resolves (children : List WChild) (cancelSet : List Nat)
    (c : WChild) (hc : c ∈ resultHarvested children cancelSet) :
    ∃ v, waitForResultLogLookup (waitLoopFrame children) c = Except.ok v := by
  have hne : children ≠ [] := by
    intro he
    rw [he] at hc
    simp [resultHarvested] at hc
  have hsome := subactor_isSome children [] hne
  obtain ⟨v, hv⟩ := Option.isSome_iff_exists.mp hsome
  refine ⟨v, ?_⟩
  rw [waitForResultLogLookup, lookupScoped]
  have hloc : dictGet [("portal", c.portalId), ("actor", c.uid)] "subactor"
      = none := by
    simp [dictGet]
  rw [hloc, waitLoopFrame, hv]

/-- Witness for C8: one alive child whose portal is in the
cancel-after-result set. -/
theorem C8_subactor_resolves_witness :
    ∃ v, waitForResultLogLookup (waitLoopFrame [⟨1, 5, true⟩]) ⟨1, 5, true⟩
      = Except.ok v :=
  C8_subactor_resolves [⟨1, 5, true⟩] [5] ⟨1, 5, true⟩ (by decide)

theorem dictGet_joinAll (children : List NChild) (procs : List (Nat × Bool))
    (u : Nat)
    (h : (∃ c ∈ children, c.uid = u) ∨ dictGet procs u = some false) :
    dictGet (joinAll children procs) u = some false := by
  induction children generalizing procs with
  | nil =>
    rcases h with ⟨c, hc, -⟩ | h
    · exact absurd hc (List.not_mem_nil c)
    · exact h
  | cons c rest ih =>
    rw [joinAll]
    refine ih _ ?_
    by_cases hu : c.uid = u
    · refine Or.inr ?_
      rw [← hu, dictGet_dictSet_self]
    · rcases h with ⟨c2, hc2, hc2u⟩ | h
      · rcases List.mem_cons.mp hc2 with he | he
        · exact absurd (he ▸ hc2u) hu
        · exact Or.inl ⟨c2, he, hc2u⟩
      · refine Or.inr ?_
        rw [dictGet_dictSet_ne _ _ _ _ hu]
        exact h

theorem waitModel_spec (s s2 : NState) (h : waitModel s = some s2) :
    s2.children = [] ∧ ∀ c ∈ s.children, dictGet s2.procs c.uid = some false := by
  rw [waitModel] at h
  by_cases ha : s.children.all (fun c => c.exits)
  · rw [if_pos ha] at h
    have h2 := Option.some.inj h
    subst h2
    refine ⟨rfl, ?_⟩
    intro c hc
    exact dictGet_joinAll s.children s.procs c.uid (Or.inl ⟨c, hc, rfl⟩)
  · rw [if_neg ha] at h
    exact Option.noConfusion h

theorem cancelModel_ok_spec (hk : Bool) (s s2 : NState)
    (h : cancelModel hk s = Except.ok s2) :
    s2.children = [] ∧ ∀ c ∈ s.children, dictGet s2.procs c.uid = some false := by
  rw [cancelModel] at h
  by_cases hhk : hk = true
  · rw [if_pos hhk] at h
    have h2 := Except.ok.inj h
    subst h2
    refine ⟨rfl, ?_⟩
    intro c hc
    exact dictGet_joinAll s.children s.procs c.uid (Or.inl ⟨c, hc, rfl⟩)
  · rw [if_neg hhk] at h
    cases hf : s.children.find? noPortalPath with
    | some c =>
      rw [hf] at h
      exact Except.noConfusion h
    | none =>
      rw [hf] at h
      by_cases hd : s.children.any (fun c => decide (3 < c.gracefulDelay)) = true
      · rw [if_pos hd] at h
        exact Except.noConfusion h
      · rw [if_neg hd] at h
        have h2 := Except.ok.inj h
        subst h2
        refine ⟨rfl, ?_⟩
        intro c hc
        refine dictGet_joinAll _ s.procs c.uid (Or.inl ⟨gracefulled c, ?_, rfl⟩)
        exact List.mem_map_of_mem gracefulled hc

theorem cancelModel_err_children (s : NState) (e : CancelErr) (s2 : NState)
    (h : cancelModel false s = Except.error (e, s2)) :
    s2.children = s.children := by
  rw [cancelModel, if_neg (by simp)] at h
  cases hf : s.children.find? noPortalPath with
  | some c =>
    rw [hf] at h
    have h2 := Except.error.inj h
    injection h2 with h2a h2b
    rw [← h2b]
  | none =>
    rw [hf] at h
    by_cases hd : s.children.any (fun c => decide (3 < c.gracefulDelay)) = true
    · rw [if_pos hd] at h
      have h2 := Except.error.inj h
      injection h2 with h2a h2b
      rw [← h2b]
    · rw [if_neg hd] at h
      exact Except.noConfusion h

/-- C1: whenever control leaves the nursery scope (the body completed
normally, raised, or was cancelled, and teardown completed), every child
process tracked by the nursery has been joined and reports not alive, and
the children map is empty. -/
theorem C1_scope_exit_children_dead (k : ExitKind) (s : NState)
    (sfin : NState) (e : Option CancelErr)
    (h : aexitModel k s = some (sfin, e)) :
    sfin.children = []
    ∧ ∀ c ∈ s.children, dictGet sfin.procs c.uid = some false := by
  have hteardown : teardownViaCancel s = some (sfin, e) →
      sfin.children = []
      ∧ ∀ c ∈ s.children, dictGet sfin.procs c.uid = some false := by
    intro ht
    rw [teardownViaCancel] at ht
    split at ht
    · rename_i s2 hc
      have h2 := Option.some.inj ht
      injection h2 with h2a h2b
      rw [← h2a]
      exact cancelModel_ok_spec false s s2 hc
    · rename_i e2 s2 hc
      split at ht
      · rename_i s3 hw
        have h2 := Option.some.inj ht
        injection h2 with h2a h2b
        rw [← h2a]
        have hch : s2.children = s.children :=
          cancelModel_err_children s e2 s2 hc
        have hspec := waitModel_spec s2 s3 hw
        refine ⟨hspec.1, ?_⟩
        intro c hcmem
        refine hspec.2 c ?_
        rw [hch]
        exact hcmem
      · exact Option.noConfusion ht
  cases k with
  | normal =>
    rw [aexitModel] at h
    cases hw : waitModel s with
    | none =>
      rw [hw] at h
      exact Option.noConfusion h
    | some s2 =>
      rw [hw] at h
      have h2 := Option.some.inj h
      injection h2 with h2a h2b
      rw [← h2a]
      exact waitModel_spec s s2 hw
  | errored => exact hteardown (by rw [← h, aexitModel])
  | cancelledSig => exact hteardown (by rw [← h, aexitModel])

/-- Witness for C1: a normal scope exit over one child whose process exits;
afterwards the children map is empty and the child process is joined dead. -/
theorem C1_scope_exit_children_dead_witness :
    ({ children := [], procs := [(7, false)], cancelled := false } : NState).children = []
    ∧ dictGet ({ children := [], procs := [(7, false)], cancelled := false } : NState).procs 7
      = some false := by
  have h := C1_scope_exit_children_dead ExitKind.normal
    { children := [⟨7, some 1, none, none, 0, true⟩],
      procs := [(7, true)], cancelled := false }
    { children := [], procs := [(7, false)], cancelled := false }
    none (by rfl)
  exact ⟨h.1, h.2 ⟨7, some 1, none, none, 0, true⟩ (by decide)⟩

/-- C3 counterexample: a child whose graceful cancel outlasts the 3 second
deadline makes cancel(hard_kill=false) raise the trio.fail_after timeout,
which propagates with the state unchanged: no hard kill is escalated and the
child process handle still reports alive, so the child is not reported dead
within the bounded time. -/
theorem C3_counterexample :
    cancelModel false
      { children := [⟨0, some 0, none, none, 5, false⟩],
        procs := [(0, true)], cancelled := false }
      = Except.error (CancelErr.tooSlow,
          { children := [⟨0, some 0, none, none, 5, false⟩],
            procs := [(0, true)], cancelled := false })
    ∧ dictGet
        ({ children := [⟨0, some 0, none, none, 5, false⟩],
           procs := [(0, true)], cancelled := false } : NState).procs 0
      = some true := by
  constructor
  · rfl
  · rfl

/-- C3 amended: when cancel(hard_kill=false) exceeds the 3 second deadline,
the trio.fail_after timeout error propagates out of cancel() with the state
unchanged; no logging-then-hard-kill escalation exists, so the offending
child is not killed by the deadline path. -/
theorem C3_timeout_propagates (s : NState)
    (hnp : s.children.find? noPortalPath = none)
    (hslow : s.children.any (fun c => decide (3 < c.gracefulDelay)) = true) :
    cancelModel false s = Except.error (CancelErr.tooSlow, s) := by
  rw [cancelModel, if_neg (by simp), hnp, if_pos hslow]

/-- Witness for C3 amended: the deadline-exceeding child of the
counterexample state. -/
theorem C3_timeout_propagates_witness :
    cancelModel false
      { children := [⟨2, some 4, none, none, 9, false⟩],
        procs := [(2, true)], cancelled := false }
      = Except.error (CancelErr.tooSlow,
          { children := [⟨2, some 4, none, none, 9, false⟩],
            procs := [(2, true)], cancelled := false }) :=
  C3_timeout_propagates
    { children := [⟨2, some 4, none, none, 9, false⟩],
      procs := [(2, true)], cancelled := false }
    (by decide) (by decide)

/-- C4: evaluation of the embedded cancel(hard_kill=false) at a child stuck
in pending-spawn whose pending-peer event wait ends with no portal and no
peer channel: the child is hard-killed (its process handle reports not
alive, so it does not leak as a zombie), but cancel() then raises
AttributeError by evaluating portal.cancel_actor with portal still None,
instead of completing without an unexpected error. -/
theorem C4_none_portal_attribute_error :
    cancelModel false
      { children := [⟨0, none, none, none, 0, false⟩],
        procs := [(0, true)], cancelled := false }
      = Except.error (CancelErr.attributeError,
          { children := [⟨0, none, none, none, 0, false⟩],
            procs := [(0, false)], cancelled := false })
    ∧ dictGet (dictSet ([(0, true)] : List (Nat × Bool)) 0 false) 0
      = some false := by
  constructor
  · rfl
  · rfl

/-- C5 counterexample: in the wait_for_result trace both operations occur but
the result harvest does not precede the cancel: portal.cancel_actor is
invoked before portal.result, so the claim that cancel_actor is invoked
after the result has been harvested fails. -/
theorem C5_counterexample :
    ¬ ((waitForResultTrace false).indexOf WaitOp.harvestResult
        < (waitForResultTrace false).indexOf WaitOp.cancelActor)
    ∧ WaitOp.cancelActor ∈ waitForResultTrace false
    ∧ WaitOp.harvestResult ∈ waitForResultTrace false := by
  decide

/-- C5 amended: in nursery wait(), a wait_for_result task is started exactly
for the children whose portal is in the cancel-after-result set and whose
process is alive; in its trace portal.cancel_actor comes first and the
result harvest second (cancel before harvest, not after), and a warning is
logged exactly when the harvested result is an unexhausted stream. -/
theorem C5_cancel_before_result (children : List WChild) (cancelSet : List Nat)
    (c : WChild) (b : Bool) :
    (c ∈ resultHarvested children cancelSet
      ↔ (c ∈ children ∧ c.alive = true ∧ c.portalId ∈ cancelSet))
    ∧ (waitForResultTrace b).indexOf WaitOp.cancelActor = 0
    ∧ (waitForResultTrace b).indexOf WaitOp.harvestResult = 1
    ∧ (WaitOp.warnUnexhausted ∈ waitForResultTrace b ↔ b = true) := by
  refine ⟨?_, ?_, ?_, ?_⟩
  · simp [resultHarvested, List.mem_filter, and_assoc]
  · cases b <;> decide
  · cases b <;> decide
  · cases b <;> decide

end Tractor
